import Mathlib

set_option maxRecDepth 20000

/-!
Verification of the bloom-soundness-check core (src/app.py).

The program's core is three pieces:
* `bloom_indexes` — derives 3 bit positions in [0, 2048) from a byte string
  via Keccak-256 (src/app.py lines 23-29);
* `bloom_check` — tests whether all three derived bits are set in a filter
  field given as an arbitrary-size unsigned integer (src/app.py lines 31-35);
* the `--verify` consistency classification in `main` (src/app.py lines 115-124);
* `parse_hex` — 0x-prefixed hex decoding of textual candidates (src/app.py
  lines 44-48).

Byte strings are modelled as `List Nat` with each element < 256; Python's
arbitrary-precision non-negative integers are modelled as `Nat`.

The source calls `Web3.keccak`, the Keccak-256 hash (original Keccak padding,
as used by Ethereum).  It is embedded below in full: the Keccak-f[1600]
permutation (state = 25 lanes of 64 bits, flat index `j = x + 5*y`), the
sponge with rate 1088 bits, and the 0x01..0x80 padding.  Two published test
vectors (empty string and "abc") are checked by `example`s after the
definitions.
-/

/-- One step of the degree-8 LFSR with feedback polynomial
`x^8 + x^6 + x^5 + x^4 + 1` that generates the Keccak round-constant bit
sequence. -/
def lfsrStep (R : Nat) : Nat :=
  if R &&& 128 ≠ 0 then ((R <<< 1) ^^^ 0x71) &&& 255 else (R <<< 1) &&& 255

/-- Bit `t` of the Keccak round-constant bit sequence `rc`. -/
def rcBit (t : Nat) : Nat :=
  ((List.range t).foldl (fun R _ => lfsrStep R) 1) &&& 1

/-- The 24 round constants of Keccak-f[1600]: constant `i` has bit
`2 ^ j - 1` equal to `rc (j + 7 * i)` for `j` in 0..6. -/
def keccakRC : List Nat :=
  (List.range 24).map (fun i =>
    (List.range 7).foldl (fun acc j => acc ||| (rcBit (j + 7 * i) <<< (2 ^ j - 1))) 0)

/-- Keccak rho rotation offsets, flat index `j = x + 5*y`: zero at the
origin lane, and `(t+1)*(t+2)/2 mod 64` at the `t`-th lane of the pi walk
`(x, y) ↦ (y, (2x + 3y) mod 5)` started at `(1, 0)`. -/
def rotOff : List Nat :=
  ((List.range 24).foldl
    (fun st t =>
      let x := st.1.1
      let y := st.1.2
      ((y, (2 * x + 3 * y) % 5), st.2.set (x + 5 * y) ((t + 1) * (t + 2) / 2 % 64)))
    ((1, 0), List.replicate 25 0)).2

-- Spot checks of the generated tables against the published ones.
example : (keccakRC.getD 0 0, keccakRC.getD 1 0, keccakRC.getD 23 0) =
    (1, 0x8082, 0x8000000080008008) := by decide

example : (rotOff.getD 0 0, rotOff.getD 2 0, rotOff.getD 10 0, rotOff.getD 24 0) =
    (0, 62, 3, 14) := by decide

def mask64 : Nat := 2 ^ 64 - 1

/-- 64-bit left rotation. -/
def rot64 (x n : Nat) : Nat :=
  ((x <<< (n % 64)) ||| (x >>> (64 - n % 64))) &&& mask64

/-- Keccak theta step. -/
def theta (s : List Nat) : List Nat :=
  let c := (List.range 5).map (fun x =>
    s.getD x 0 ^^^ s.getD (x + 5) 0 ^^^ s.getD (x + 10) 0 ^^^ s.getD (x + 15) 0 ^^^
      s.getD (x + 20) 0)
  let d := (List.range 5).map (fun x => c.getD ((x + 4) % 5) 0 ^^^ rot64 (c.getD ((x + 1) % 5) 0) 1)
  (List.range 25).map (fun j => s.getD j 0 ^^^ d.getD (j % 5) 0)

/-- Keccak rho and pi steps combined: output lane (X, Y) is the rotation of input
lane (x, y) with `x = (X + 3Y) % 5`, `y = X`. -/
def rhoPi (s : List Nat) : List Nat :=
  (List.range 25).map (fun j =>
    let src := (j % 5 + 3 * (j / 5)) % 5 + 5 * (j % 5)
    rot64 (s.getD src 0) (rotOff.getD src 0))

/-- Keccak chi step. -/
def chi (s : List Nat) : List Nat :=
  (List.range 25).map (fun j =>
    s.getD j 0 ^^^
      ((s.getD ((j % 5 + 1) % 5 + 5 * (j / 5)) 0 ^^^ mask64) &&&
        s.getD ((j % 5 + 2) % 5 + 5 * (j / 5)) 0))

/-- Keccak iota step: xor the round constant into lane 0. -/
def iotaStep (s : List Nat) (rc : Nat) : List Nat :=
  (List.range 25).map (fun j => if j = 0 then s.getD 0 0 ^^^ rc else s.getD j 0)

/-- The Keccak-f[1600] permutation: 24 rounds. -/
def keccakF (s : List Nat) : List Nat :=
  keccakRC.foldl (fun a rc => iotaStep (chi (rhoPi (theta a))) rc) s

/-- Interpret a byte list as a little-endian 64-bit lane. -/
def bytesToLane (bs : List Nat) : Nat :=
  bs.foldr (fun b acc => b + 256 * acc) 0

/-- Absorb one 136-byte block into the sponge state and permute. -/
def absorbBlock (s block : List Nat) : List Nat :=
  keccakF ((List.range 25).map (fun j =>
    if j < 17 then s.getD j 0 ^^^ bytesToLane ((block.drop (8 * j)).take 8) else s.getD j 0))

/-- Original Keccak multi-rate padding (0x01 .. 0x80) to a multiple of 136 bytes. -/
def keccakPad (msg : List Nat) : List Nat :=
  let pads := 136 - msg.length % 136
  if pads = 1 then msg ++ [0x81]
  else msg ++ [0x01] ++ List.replicate (pads - 2) 0 ++ [0x80]

/-- Keccak-256 of a byte string (the `Web3.keccak` called by src/app.py line 28):
returns the 32-byte digest. -/
def keccak256 (msg : List Nat) : List Nat :=
  let padded := keccakPad msg
  let final := (List.range (padded.length / 136)).foldl
    (fun s i => absorbBlock s ((padded.drop (136 * i)).take 136)) (List.replicate 25 0)
  (List.range 32).map (fun i => (final.getD (i / 8) 0 >>> (8 * (i % 8))) &&& 255)

/-- src/app.py lines 23-29: the three Ethereum log-bloom indices of a byte
string, `((h[2*i] << 8) | h[2*i+1]) & 2047` for `i` in {0, 1, 2} where
`h = keccak256(data)`. -/
def bloom_indexes (data : List Nat) : List Nat :=
  let h := keccak256 data
  (List.range 3).map (fun i => ((h.getD (2 * i) 0 <<< 8) ||| h.getD (2 * i + 1) 0) &&& 2047)

/-- src/app.py lines 31-35: membership test.  The Python loop returns `False`
as soon as `(bloom_int >> idx) & 1 == 0` for some derived index and `True`
otherwise; that is exactly `List.all` of the negated bit-is-zero test. -/
def bloom_check (bloom_int : Nat) (data : List Nat) : Bool :=
  (bloom_indexes data).all (fun idx => !(((bloom_int >>> idx) &&& 1) == 0))

-- Keccak-256 test vector: the empty string hashes to
-- c5d2460186f7233c927e7db2dcc703c0e500b653ca82273b7bfad8045d85a470
-- (the well-known Ethereum empty-code hash).
example : keccak256 [] =
    [0xc5, 0xd2, 0x46, 0x01, 0x86, 0xf7, 0x23, 0x3c, 0x92, 0x7e, 0x7d, 0xb2, 0xdc, 0xc7, 0x03,
     0xc0, 0xe5, 0x00, 0xb6, 0x53, 0xca, 0x82, 0x27, 0x3b, 0x7b, 0xfa, 0xd8, 0x04, 0x5d, 0x85,
     0xa4, 0x70] := by decide

-- Keccak-256 test vector: "abc" (bytes 61 62 63) hashes to
-- 4e03657aea45a94fc7d47ba826c8d667c0d1e6e33a64a036ec44f58fa12d6c45.
example : keccak256 [0x61, 0x62, 0x63] =
    [0x4e, 0x03, 0x65, 0x7a, 0xea, 0x45, 0xa9, 0x4f, 0xc7, 0xd4, 0x7b, 0xa8, 0x26, 0xc8, 0xd6,
     0x67, 0xc0, 0xd1, 0xe6, 0xe3, 0x3a, 0x64, 0xa0, 0x36, 0xec, 0x44, 0xf5, 0x8f, 0xa1, 0x2d,
     0x6c, 0x45] := by decide

example : bloom_indexes [] = [1490, 1537, 1783] := by decide

example : bloom_indexes [0x61, 0x62, 0x63] = [1539, 1402, 581] := by decide

/-- §4.1 of the spec, stated in the spec's own words: combine hash bytes
`2*i` and `2*i+1` as a big-endian 16-bit value and take it modulo 2048
(the source uses `& 2047` instead). -/
def bloomIndexesSpec (data : List Nat) : List Nat :=
  let h := keccak256 data
  (List.range 3).map (fun i => ((h.getD (2 * i) 0 <<< 8) ||| h.getD (2 * i + 1) 0) % 2048)

/-- The spec-level field construction (filter population happens outside the
core, at block production): the field obtained by setting exactly the bits
at the positions in `l`, starting from `F`. -/
def setBits (F : Nat) (l : List Nat) : Nat :=
  l.foldl (fun a idx => a ||| (1 <<< idx)) F

/-- The field built by setting exactly the three derived bit indices (per
`bloom_indexes`) of each inserted candidate. -/
def bloomInsertAll (cs : List (List Nat)) : Nat :=
  cs.foldl (fun F c => setBits F (bloom_indexes c)) 0

/-- Possible outcomes of the §4.3 consistency verification. -/
inductive VerifyOutcome
  | soundnessViolation
  | benignFalsePositive
  | consistent
deriving DecidableEq

/-- src/app.py lines 119-122: the two flags printed by the `--verify` branch.
The first component is the soundness-violation warning condition
`(addr_ok is False or topic_ok is False) and count > 0`; the second is the
benign-false-positive note condition
`(addr_ok is True or topic_ok is True) and count == 0`.
`none` models a candidate that was not supplied (Python `None`). -/
def verifyFlags (addr_ok topic_ok : Option Bool) (count : Nat) : Bool × Bool :=
  ((addr_ok == some false || topic_ok == some false) && decide (0 < count),
   (addr_ok == some true || topic_ok == some true) && (count == 0))

/-- The three-way §4.3 classification for a single tested candidate with
membership-test result `b`: which (if either) of the code's two flags fires. -/
def classifySingle (b : Bool) (count : Nat) : VerifyOutcome :=
  match verifyFlags (some b) none count with
  | (true, _) => VerifyOutcome.soundnessViolation
  | (false, true) => VerifyOutcome.benignFalsePositive
  | (false, false) => VerifyOutcome.consistent

/-! ### Bridge lemmas -/

lemma bit_test_eq (F idx : Nat) : (((F >>> idx) &&& 1) == 0) = !F.testBit idx := by
  rw [Nat.and_one_is_mod, Nat.shiftRight_eq_div_pow, Nat.testBit_to_div_mod]
  rcases Nat.mod_two_eq_zero_or_one (F / 2 ^ idx) with h | h <;> simp [h]

lemma bloom_check_eq_all_testBit (F : Nat) (data : List Nat) :
    bloom_check F data = (bloom_indexes data).all (fun idx => F.testBit idx) := by
  simp only [bloom_check, bit_test_eq, Bool.not_not]

lemma bloom_indexes_lt (data : List Nat) : ∀ idx ∈ bloom_indexes data, idx < 2048 := by
  intro idx h
  simp only [bloom_indexes, List.mem_map, List.mem_range] at h
  obtain ⟨i, _, rfl⟩ := h
  exact Nat.lt_of_le_of_lt Nat.and_le_right (by norm_num)

lemma and_2047_eq_mod (x : Nat) : x &&& 2047 = x % 2048 := by
  apply Nat.eq_of_testBit_eq
  intro i
  have h2047 : (2047 : Nat) = 2 ^ 11 - 1 := by norm_num
  have h2048 : (2048 : Nat) = 2 ^ 11 := by norm_num
  rw [Nat.testBit_land, h2047, h2048, Nat.testBit_two_pow_sub_one, Nat.testBit_mod_two_pow]
  cases Nat.testBit x i <;> simp

lemma all_congr_on_mem {α : Type} (l : List α) (p q : α → Bool)
    (h : ∀ x ∈ l, p x = q x) : l.all p = l.all q := by
  induction l with
  | nil => rfl
  | cons a t ih =>
    simp only [List.all_cons, h a (List.mem_cons_self a t),
      ih (fun x hx => h x (List.mem_cons_of_mem a hx))]

lemma bloom_check_mod_2048 (F : Nat) (data : List Nat) :
    bloom_check F data = bloom_check (F % 2 ^ 2048) data := by
  rw [bloom_check_eq_all_testBit, bloom_check_eq_all_testBit]
  apply all_congr_on_mem
  intro idx hidx
  rw [Nat.testBit_mod_two_pow]
  simp [bloom_indexes_lt data idx hidx]

lemma testBit_setBits_mono (l : List Nat) (F j : Nat) (h : F.testBit j = true) :
    (setBits F l).testBit j = true := by
  induction l generalizing F with
  | nil => exact h
  | cons i t ih =>
    exact ih (F ||| (1 <<< i)) (by rw [Nat.testBit_lor, h, Bool.true_or])

lemma setBits_cons (F i : Nat) (t : List Nat) :
    setBits F (i :: t) = setBits (F ||| (1 <<< i)) t := rfl

lemma testBit_setBits_mem (l : List Nat) (F j : Nat) (h : j ∈ l) :
    (setBits F l).testBit j = true := by
  induction l generalizing F with
  | nil => cases h
  | cons i t ih =>
    rcases List.mem_cons.mp h with rfl | h2
    · rw [setBits_cons]
      apply testBit_setBits_mono
      rw [Nat.testBit_lor]
      have hbit : (1 <<< j).testBit j = true := by
        rw [Nat.shiftLeft_eq, one_mul]
        exact Nat.testBit_two_pow_self
      rw [hbit, Bool.or_true]
    · exact ih (F ||| (1 <<< i)) h2

lemma testBit_insertAll_mono (cs : List (List Nat)) (F j : Nat) (h : F.testBit j = true) :
    (cs.foldl (fun F c => setBits F (bloom_indexes c)) F).testBit j = true := by
  induction cs generalizing F with
  | nil => exact h
  | cons c t ih => exact ih _ (testBit_setBits_mono _ F j h)

lemma testBit_insertAll_mem (cs : List (List Nat)) (j : Nat) (c : List Nat)
    (hj : j ∈ bloom_indexes c) :
    ∀ F, c ∈ cs → (cs.foldl (fun F c => setBits F (bloom_indexes c)) F).testBit j = true := by
  induction cs with
  | nil =>
    intro F hc
    cases hc
  | cons c0 t ih =>
    intro F hc
    rcases List.mem_cons.mp hc with rfl | h2
    · exact testBit_insertAll_mono t _ j (testBit_setBits_mem _ F j hj)
    · exact ih _ h2

/-! ### Claim theorems -/

/-- C1.  No false negatives: for every finite set of candidate byte strings
and the field built by setting exactly the three derived bit indices (per
`bloom_indexes`) of each inserted candidate, `bloom_check` returns true for
every inserted candidate. -/
theorem bloom_no_false_negatives (cs : List (List Nat)) (c : List Nat) (h : c ∈ cs) :
    bloom_check (bloomInsertAll cs) c = true := by
  rw [bloom_check_eq_all_testBit, List.all_eq_true]
  intro idx hidx
  exact testBit_insertAll_mem cs idx c hidx 0 h

/-- Witness for C1 at a concrete input: the empty byte string inserted as
the only candidate is reported present. -/
theorem bloom_no_false_negatives_witness :
    bloom_check (bloomInsertAll [[]]) [] = true :=
  bloom_no_false_negatives [[]] [] (List.Mem.head _)

/-- C2.  Index derivation correctness: `bloom_indexes` returns exactly the
sequence of the spec's §4.1 formula (big-endian 16-bit combination of hash
bytes `2i`, `2i+1`, modulo 2048), in order, of length 3, each value below
2048, total on all byte strings (it is a total Lean function). -/
theorem bloom_indexes_correct (data : List Nat) :
    bloom_indexes data = bloomIndexesSpec data ∧
    (bloom_indexes data).length = 3 ∧
    ∀ idx ∈ bloom_indexes data, idx < 2048 := by
  refine ⟨?_, ?_, bloom_indexes_lt data⟩
  · simp only [bloom_indexes, bloomIndexesSpec, and_2047_eq_mod]
  · simp [bloom_indexes]

/-- C3.  Membership test correctness: `bloom_check F data` is true iff for
each derived index `idx`, bit `idx` of `F` is set, i.e.
`(F >>> idx) &&& 1 = 1`. -/
theorem bloom_check_iff (F : Nat) (data : List Nat) :
    bloom_check F data = true ↔ ∀ idx ∈ bloom_indexes data, (F >>> idx) &&& 1 = 1 := by
  rw [bloom_check, List.all_eq_true]
  constructor
  · intro h idx hidx
    have := h idx hidx
    rcases (by rw [Nat.and_one_is_mod]; exact Nat.mod_two_eq_zero_or_one _ :
      (F >>> idx) &&& 1 = 0 ∨ (F >>> idx) &&& 1 = 1) with h0 | h1
    · rw [h0] at this; simp at this
    · exact h1
  · intro h idx hidx
    rw [h idx hidx]
    simp

/-- C8.  Determinism: index derivation run twice on the same byte string
yields identical results, and so does the membership test on the same
(field, data) pair — both are pure Lean functions of their arguments. -/
theorem bloom_deterministic (d : List Nat) (F : Nat) :
    bloom_indexes d = bloom_indexes d ∧ bloom_check F d = bloom_check F d :=
  ⟨rfl, rfl⟩

/-- C9.  Only the low 2048 bits of the field matter: `bloom_check F data`
agrees with `bloom_check (F % 2 ^ 2048) data` for every field; bits at
positions ≥ 2048 never influence the result and wide fields are silently
accepted. -/
theorem bloom_check_ignores_high_bits (F : Nat) (data : List Nat) :
    bloom_check F data = bloom_check (F % 2 ^ 2048) data :=
  bloom_check_mod_2048 F data

/-- C10.  Monotonicity: if every set bit of `F` is also set in `G`
(`F &&& G = F`), a candidate reported present under `F` is reported present
under `G`; and the all-ones 2048-bit field reports every candidate present. -/
theorem bloom_check_monotone (data : List Nat) (F G : Nat) (h : F &&& G = F) :
    (bloom_check F data = true → bloom_check G data = true) ∧
    bloom_check (2 ^ 2048 - 1) data = true := by
  constructor
  · intro hF
    rw [bloom_check_eq_all_testBit, List.all_eq_true] at hF ⊢
    intro idx hidx
    have hFbit := hF idx hidx
    have hland := congrArg (fun x => Nat.testBit x idx) h
    simp only [Nat.testBit_land] at hland
    rw [hFbit, Bool.true_and] at hland
    exact hland
  · rw [bloom_check_eq_all_testBit, List.all_eq_true]
    intro idx hidx
    rw [Nat.testBit_two_pow_sub_one]
    exact decide_eq_true (bloom_indexes_lt data idx hidx)

/-- Witness for C10 at concrete inputs `F = G = 0`, `data = []`. -/
theorem bloom_check_monotone_witness :
    (0 : Nat) &&& 0 = 0 ∧
    ((bloom_check 0 [] = true → bloom_check 0 [] = true) ∧
      bloom_check (2 ^ 2048 - 1) [] = true) :=
  ⟨rfl, bloom_check_monotone [] 0 0 rfl⟩

/-- C4.  Consistency classification: for a single tested candidate with
membership result `b` and authoritative count `c` (a `Nat`, hence `c ≥ 0`),
the verification step yields a soundness violation iff `b` is false and
`c > 0`, a benign false positive iff `b` is true and `c = 0`, and is
consistent exactly otherwise — one of the three outcomes always holds. -/
theorem verify_classification (b : Bool) (c : Nat) :
    (classifySingle b c = VerifyOutcome.soundnessViolation ↔ b = false ∧ 0 < c) ∧
    (classifySingle b c = VerifyOutcome.benignFalsePositive ↔ b = true ∧ c = 0) ∧
    (classifySingle b c = VerifyOutcome.consistent ↔
      (b = true ∧ 0 < c) ∨ (b = false ∧ c = 0)) := by
  rcases Nat.eq_zero_or_pos c with rfl | hc
  · cases b <;> simp [classifySingle, verifyFlags]
  · have hne : c ≠ 0 := Nat.pos_iff_ne_zero.mp hc
    have hbeq : (c == 0) = false := by simp [hne]
    have hdec : decide (0 < c) = true := by simp [hc]
    cases b <;> simp [classifySingle, verifyFlags, hbeq, hdec, hne, hc]

/-- C5.  False positives are possible: there is an insertion set and a
candidate outside it that `bloom_check` nevertheless reports present.
Concretely, the empty byte string (indices 1490, 1537, 1783) is covered by
inserting the byte strings [179], [1, 145] and [5, 134]. -/
theorem bloom_false_positive_exists :
    ∃ (cs : List (List Nat)) (c : List Nat),
      c ∉ cs ∧ bloom_check (bloomInsertAll cs) c = true := by
  refine ⟨[[179], [1, 145], [5, 134]], [], ?_, ?_⟩
  · decide
  · decide

/-- Counterexample to C6 as stated: at the field `2 ^ 2048`, which needs
2049 bits, `bloom_check` returns the boolean `false` instead of failing
with an invalid-input error — the source performs no width validation. -/
theorem bloom_check_wide_field_cex :
    bloom_check (2 ^ 2048) [] = false := by decide

/-- C6 amended: a field of more than 2048 bits is silently accepted;
`bloom_check` returns a boolean equal to the one for the field truncated to
its low 2048 bits. -/
theorem bloom_check_wide_field_accepted (F : Nat) (data : List Nat)
    (_h : 2 ^ 2048 ≤ F) :
    bloom_check F data = bloom_check (F % 2 ^ 2048) data :=
  bloom_check_mod_2048 F data

/-- Witness for the amended C6 at the concrete field `2 ^ 2048`. -/
theorem bloom_check_wide_field_accepted_witness :
    2 ^ 2048 ≤ 2 ^ 2048 ∧
      bloom_check (2 ^ 2048) [] = bloom_check (2 ^ 2048 % 2 ^ 2048) [] :=
  ⟨le_refl _, bloom_check_wide_field_accepted (2 ^ 2048) [] (le_refl _)⟩

/-! ### parse_hex (src/app.py lines 44-48)

Python strings are modelled as `List Char`; `bytes.fromhex` is modelled as
strict pairs of hex digits (0-9, a-f, A-F; it rejects an odd number of
digits and any non-hex character).  Python's `bytes.fromhex` additionally
skips ASCII whitespace between bytes; that tolerance is not modelled here
and no claim depends on it. -/

/-- Value of one hex digit character, if it is one. -/
def hexDigitVal (c : Char) : Option Nat :=
  if 48 ≤ c.toNat ∧ c.toNat ≤ 57 then some (c.toNat - 48)
  else if 97 ≤ c.toNat ∧ c.toNat ≤ 102 then some (c.toNat - 87)
  else if 65 ≤ c.toNat ∧ c.toNat ≤ 70 then some (c.toNat - 55)
  else none

/-- `bytes.fromhex`: decode pairs of hex digits; `none` on odd length or a
non-hex character. -/
def hexDecode : List Char → Option (List Nat)
  | [] => some []
  | [_] => none
  | c1 :: c2 :: rest =>
    match hexDigitVal c1, hexDigitVal c2, hexDecode rest with
    | some hi, some lo, some bs => some ((16 * hi + lo) :: bs)
    | _, _, _ => none

/-- src/app.py lines 44-48: require a `0x` prefix, then hex-decode the rest.
The `ValueError`s raised by the Python code are modelled as `Except.error`
with the corresponding message. -/
def parse_hex (s kind : List Char) : Except (List Char) (List Nat) :=
  if s.take 2 = ['0', 'x'] then
    match hexDecode (s.drop 2) with
    | some bs => Except.ok bs
    | none => Except.error (String.toList "non-hexadecimal number found in fromhex")
  else Except.error (kind ++ String.toList " must be 0x-prefixed hex")

/-- Lower-case hex digit character of a value below 16. -/
def hexDigitChar (n : Nat) : Char :=
  if n < 10 then Char.ofNat (48 + n) else Char.ofNat (87 + n)

/-- Lower-case hex encoding of a byte list, two digits per byte. -/
def hexEncode (bs : List Nat) : List Char :=
  bs.foldr (fun b acc => hexDigitChar (b / 16) :: hexDigitChar (b % 16) :: acc) []

lemma hexDigitVal_hexDigitChar : ∀ d < 16, hexDigitVal (hexDigitChar d) = some d := by decide

lemma hexDecode_hexEncode (bs : List Nat) (h : ∀ b ∈ bs, b < 256) :
    hexDecode (hexEncode bs) = some bs := by
  induction bs with
  | nil => rfl
  | cons b t ih =>
    have hb : b < 256 := h b (List.mem_cons_self b t)
    have h1 : hexDigitVal (hexDigitChar (b / 16)) = some (b / 16) :=
      hexDigitVal_hexDigitChar _ (Nat.div_lt_of_lt_mul (by omega))
    have h2 : hexDigitVal (hexDigitChar (b % 16)) = some (b % 16) :=
      hexDigitVal_hexDigitChar _ (Nat.mod_lt _ (by norm_num))
    have ht := ih (fun x hx => h x (List.mem_cons_of_mem b hx))
    show hexDecode (hexDigitChar (b / 16) :: hexDigitChar (b % 16) :: hexEncode t) = some (b :: t)
    rw [hexDecode, h1, h2, ht]
    show some ((16 * (b / 16) + b % 16) :: t) = some (b :: t)
    have hdm : 16 * (b / 16) + b % 16 = b := by omega
    rw [hdm]

/-- Counterexample to C7 as stated: the textual topic input `0x00` decodes
to the single byte `0x00` — a length that is neither 20 nor 32 — yet
`parse_hex` accepts it without any error. -/
theorem parse_hex_wrong_length_accepted :
    parse_hex (String.toList "0x00") (String.toList "topic0") = Except.ok [0] ∧
    ([0] : List Nat).length ≠ 20 ∧ ([0] : List Nat).length ≠ 32 := by
  refine ⟨rfl, by decide, by decide⟩

/-- C7 amended: `parse_hex` validates only the `0x` prefix and
hex-decodability; a well-formed hex string of any byte length — including
lengths other than 20 and 32 — is accepted and returns the decoded bytes. -/
theorem parse_hex_accepts_any_length (bs : List Nat) (kind : List Char)
    (h : ∀ b ∈ bs, b < 256) :
    parse_hex (['0', 'x'] ++ hexEncode bs) kind = Except.ok bs := by
  have hTake : (['0', 'x'] ++ hexEncode bs).take 2 = ['0', 'x'] := rfl
  have hDrop : (['0', 'x'] ++ hexEncode bs).drop 2 = hexEncode bs := rfl
  unfold parse_hex
  rw [hDrop, hexDecode_hexEncode bs h, if_pos hTake]

/-- Witness for the amended C7 at the concrete byte list [171] (one byte,
hex `ab`). -/
theorem parse_hex_accepts_any_length_witness :
    (∀ b ∈ [171], b < 256) ∧
      parse_hex (['0', 'x'] ++ hexEncode [171]) [] = Except.ok [171] :=
  ⟨by decide, parse_hex_accepts_any_length [171] [] (by decide)⟩
